import Mathlib

/-!
Shallow embedding of the glue workflow-execution engine
(`packages/core/src/engine`: parameter-resolver, step-runner, executor)
together with the pieces of the connector layer the engine observes.

JavaScript runtime values are modelled by the inductive `JValue`; the
JS value `undefined` is a first-class constructor `JValue.undefined`, so an
object can hold a key bound to `undefined` (distinct from the key being
absent), exactly as in the source runtime.  Promise rejection of an
`async` function is modelled by `Except String`; a thrown `Error` is
identified with its `message` string.  Wall-clock timestamps are opaque
(`Date`): no spec claim observes a concrete time, only whether a
timestamp was set.
-/

namespace Glue

/-- JS/JSON runtime value.  `undef` is the JS value `undefined`;
object fields are kept in insertion order, as JS engines do. -/
inductive JValue where
  | undefined
  | null
  | bool (b : Bool)
  | num (n : Int)
  | str (s : String)
  | arr (items : List JValue)
  | obj (fields : List (String × JValue))
deriving Repr, Inhabited

/-- A JS plain object (`Record<string, unknown>`): ordered association list. -/
abbrev JObject := List (String × JValue)

mutual

/-- Structural decidable equality for `JValue`. -/
def JValue.beq : JValue → JValue → Bool
  | .undefined, .undefined => true
  | .null, .null => true
  | .bool a, .bool b => a = b
  | .num a, .num b => a = b
  | .str a, .str b => a = b
  | .arr a, .arr b => JValue.beqList a b
  | .obj a, .obj b => JValue.beqFields a b
  | _, _ => false

def JValue.beqList : List JValue → List JValue → Bool
  | [], [] => true
  | a :: as', b :: bs' => JValue.beq a b && JValue.beqList as' bs'
  | _, _ => false

def JValue.beqFields : List (String × JValue) → List (String × JValue) → Bool
  | [], [] => true
  | (k, v) :: as', (k', v') :: bs' => k = k' && JValue.beq v v' && JValue.beqFields as' bs'
  | _, _ => false

end

mutual

theorem JValue.beq_iff : ∀ a b : JValue, JValue.beq a b = true ↔ a = b
  | .undefined, b => by cases b <;> simp [JValue.beq]
  | .null, b => by cases b <;> simp [JValue.beq]
  | .bool x, b => by cases b <;> simp [JValue.beq]
  | .num x, b => by cases b <;> simp [JValue.beq]
  | .str x, b => by cases b <;> simp [JValue.beq]
  | .arr xs, b => by
      cases b <;> simp [JValue.beq]
      exact JValue.beqList_iff xs _
  | .obj xs, b => by
      cases b <;> simp [JValue.beq]
      exact JValue.beqFields_iff xs _

theorem JValue.beqList_iff : ∀ a b : List JValue, JValue.beqList a b = true ↔ a = b
  | [], b => by cases b <;> simp [JValue.beqList]
  | x :: xs, b => by
      cases b with
      | nil => simp [JValue.beqList]
      | cons y ys =>
          simp [JValue.beqList, Bool.and_eq_true, JValue.beq_iff x y,
            JValue.beqList_iff xs ys]

theorem JValue.beqFields_iff :
    ∀ a b : List (String × JValue), JValue.beqFields a b = true ↔ a = b
  | [], b => by cases b <;> simp [JValue.beqFields]
  | (k, v) :: xs, b => by
      cases b with
      | nil => simp [JValue.beqFields]
      | cons y ys =>
          obtain ⟨k', v'⟩ := y
          simp [JValue.beqFields, Bool.and_eq_true, JValue.beq_iff v v',
            JValue.beqFields_iff xs ys, and_assoc]

end

instance : DecidableEq JValue := fun a b =>
  decidable_of_iff (JValue.beq a b = true) (JValue.beq_iff a b)

/-- JS truthiness: `undefined`, `null`, `false`, `0`, `""` are falsy;
every other value (all objects and arrays included) is truthy. -/
def jsTruthy : JValue → Bool
  | .undefined => false
  | .null => false
  | .bool b => b
  | .num n => n ≠ 0
  | .str s => s ≠ ""
  | .arr _ => true
  | .obj _ => true

/-- First binding of a key in an object, `undefined`-valued bindings included
(this is JS property access combined with the `in` test: `none` means the key
is absent, `some .undefined` means present but bound to `undefined`). -/
def objGet : JObject → String → Option JValue
  | [], _ => none
  | (k, v) :: rest, key => if k = key then some v else objGet rest key

/-- JS property assignment `obj[k] = v`: overwrite in place if the key exists,
otherwise append (JS objects preserve insertion order). -/
def objSet : JObject → String → JValue → JObject
  | [], k, v => [(k, v)]
  | (k', v') :: rest, k, v =>
      if k' = k then (k, v) :: rest else (k', v') :: objSet rest k v

/-- JS spread / `Object.assign` shallow merge `{...a, ...b}`:
keys of `b` override same-named keys of `a` in place, new keys append.  -/
def jsSpreadMerge (a b : JObject) : JObject :=
  b.foldl (fun acc p => objSet acc p.1 p.2) a

/-- First binding in a string-valued map (`Record<string,string>` / `Map`). -/
def lookupStr {α : Type} : List (String × α) → String → Option α
  | [], _ => none
  | (k, v) :: rest, key => if k = key then some v else lookupStr rest key

mutual

/-- JS `String(value)` conversion for the values this engine produces:
numbers print in decimal, `null`/`undefined` by name, arrays join their
elements with `","` (with `null`/`undefined` elements printing as the
empty string, per `Array.prototype.toString`), plain objects print as
`"[object Object]"`. -/
def jsToString : JValue → String
  | .undefined => "undefined"
  | .null => "null"
  | .bool true => "true"
  | .bool false => "false"
  | .num n => toString n
  | .str s => s
  | .arr items => String.intercalate ("," ) (jsToStringArrayElems items)
  | .obj _ => "[object Object]"

def jsToStringArrayElems : List JValue → List String
  | [] => []
  | .undefined :: rest => "" :: jsToStringArrayElems rest
  | .null :: rest => "" :: jsToStringArrayElems rest
  | v :: rest => jsToString v :: jsToStringArrayElems rest

end

/-- Canonical decimal array index accepted by the JS `in` operator on an
array: `part` must print exactly as the index and be within bounds. -/
def decodeIndex (part : String) (len : Nat) : Option Nat :=
  match part.toNat? with
  | some i => if toString i = part ∧ i < len then some i else none
  | none => none

/-- The nested-lookup loop shared (verbatim in the source) by
`ParameterResolver.getNestedValue` and `JsonTransformer.getValueByPath`:

for each path part, `if (current && typeof current === 'object' && part in current)
current = current[part]; else return undefined`.

On arrays the JS `in` test accepts canonical element indices and `"length"`;
primitives, `null` and `undefined` fail the guard and yield `undefined`. -/
def walkPath : JValue → List String → JValue
  | current, [] => current
  | .obj fields, part :: rest =>
      match objGet fields part with
      | some v => walkPath v rest
      | none => .undefined
  | .arr items, part :: rest =>
      if part = "length" then walkPath (.num items.length) rest
      else
        match decodeIndex part items.length with
        | some i => walkPath (items.getD i .undefined) rest
        | none => .undefined
  | _, _ :: _ => .undefined

/-- JS `string.split('.')` on the character list: cut at every `'.'`;
the empty string splits to `[""]`, adjacent dots produce empty segments. -/
def splitDot : List Char → List (List Char)
  | [] => [[]]
  | c :: rest =>
      if c = '.' then [] :: splitDot rest
      else
        match splitDot rest with
        | s :: ss => (c :: s) :: ss
        | [] => [[c]]

/-- JS `path.split('.')` producing strings. -/
def jsSplitDot (path : String) : List String :=
  (splitDot path.data).map String.mk

/-- Embeds `ParameterContext` from parameter-resolver.ts: workflow input, the map
of recorded step outputs, and the environment snapshot. -/
structure ParameterContext where
  workflowInput : JObject
  stepExecutions : List (String × JObject)
  env : List (String × String)

/-- Embeds `ParameterResolver.resolveReference` after the initial `path.split('.')`:
the cascade of namespace checks from the source, in order
(`parts[0]==='workflow' && parts[1]==='input'`, then
`parts[0]==='steps' && parts.length >= 2`, then
`parts[0]==='env' && parts.length === 2`).  A fall-through (unknown first
segment, a path of fewer than two segments, an over-long `env` path, or a
`steps.<id>` whose step has no recorded output) resolves to `undefined`. -/
def resolveParts (ctx : ParameterContext) : List String → JValue
  | p0 :: p1 :: rest =>
      if p0 = "workflow" ∧ p1 = "input" then
        walkPath (.obj ctx.workflowInput) rest
      else if p0 = "steps" then
        match lookupStr ctx.stepExecutions p1 with
        | some out => walkPath (.obj out) rest
        | none => .undefined
      else if p0 = "env" ∧ rest = [] then
        match lookupStr ctx.env p1 with
        | some s => .str s
        | none => .undefined
      else .undefined
  | _ => .undefined

/-- Embeds `ParameterResolver.resolveReference`. -/
def resolveReference (path : String) (ctx : ParameterContext) : JValue :=
  resolveParts ctx (jsSplitDot path)

/-- Scan to the first `'\x7d'`: returns the (possibly empty) run of
non-brace characters and the remainder after the brace, or `none` when the
string has no closing brace.  This is how the regex `\$\x7b([^\x7d]+)\x7d`
delimits a candidate reference. -/
def findBrace : List Char → Option (List Char × List Char)
  | [] => none
  | c :: rest =>
      if c = '\x7d' then some ([], rest)
      else
        match findBrace rest with
        | some (content, rest') => some (c :: content, rest')
        | none => none

theorem findBrace_length :
    ∀ l content rest', findBrace l = some (content, rest') →
      rest'.length < l.length := by
  intro l
  induction l with
  | nil => intro _ _ h; simp [findBrace] at h
  | cons c rest ih =>
      intro content rest' h
      by_cases hc : c = '\x7d'
      · simp [findBrace, hc] at h
        simp [← h.2]
      · simp only [findBrace, if_neg hc] at h
        match hfb : findBrace rest with
        | some (content₀, rest₀) =>
            rw [hfb] at h
            simp only [Option.some.injEq, Prod.mk.injEq] at h
            have := ih content₀ rest₀ hfb
            rw [← h.2]
            simp only [List.length_cons]
            omega
        | none => rw [hfb] at h; simp at h

/-- Embeds `ParameterResolver.interpolateString`, character by character: the global
replace of `\$\x7b([^\x7d]+)\x7d`.  Each matched reference whose resolution is
not `undefined` is replaced by its `String(...)` form; an `undefined`
resolution leaves the token verbatim.  A `"$\x7b"` with no closing brace (or
with an empty body, which `[^\x7d]+` rejects) is ordinary text. -/
def interpolateChars (ctx : ParameterContext) : List Char → List Char
  | [] => []
  | c :: rest =>
      if c = '$' then
        match rest with
        | '\x7b' :: rest2 =>
            match hfb : findBrace rest2 with
            | some (content, rest') =>
                if content.isEmpty then
                  '$' :: '\x7b' :: interpolateChars ctx rest2
                else
                  let v := resolveParts ctx (jsSplitDot (String.mk content))
                  if v = .undefined then
                    '$' :: '\x7b' ::
                      (content ++ '\x7d' :: interpolateChars ctx rest')
                  else
                    (jsToString v).data ++ interpolateChars ctx rest'
            | none => '$' :: '\x7b' :: interpolateChars ctx rest2
        | r => c :: interpolateChars ctx r
      else c :: interpolateChars ctx rest
  termination_by l => l.length
  decreasing_by
  all_goals simp only [List.length_cons]
  all_goals try omega
  all_goals have h9 := findBrace_length rest2 content rest' hfb
  all_goals omega

/-- Embeds `ParameterResolver.interpolateString`. -/
def interpolateString (template : String) (ctx : ParameterContext) : String :=
  String.mk (interpolateChars ctx template.data)

mutual

/-- Embeds `ParameterResolver.resolveValue`: strings are interpolated, arrays and
objects recursed into, every other scalar passes through unchanged. -/
def resolveValue (ctx : ParameterContext) : JValue → JValue
  | .str s => .str (interpolateString s ctx)
  | .arr items => .arr (resolveValueList ctx items)
  | .obj fields => .obj (resolveValueFields ctx fields)
  | v => v

def resolveValueList (ctx : ParameterContext) : List JValue → List JValue
  | [] => []
  | v :: rest => resolveValue ctx v :: resolveValueList ctx rest

def resolveValueFields (ctx : ParameterContext) :
    List (String × JValue) → List (String × JValue)
  | [] => []
  | (k, v) :: rest => (k, resolveValue ctx v) :: resolveValueFields ctx rest

end

/-- Embeds `ParameterResolver.resolve`: resolve every entry of a parameters map. -/
def resolve (parameters : JObject) (ctx : ParameterContext) : JObject :=
  resolveValueFields ctx parameters

/-- Opaque wall-clock timestamp (`new Date()`); no claim observes its value,
only whether one was recorded. -/
structure Date where
deriving Repr, DecidableEq, Inhabited

def Date.now : Date := {}

/-- Step status enum from types/step.ts. -/
inductive StepStatus where
  | pending | running | completed | failed | skipped
deriving Repr, DecidableEq, Inhabited

/-- Step-level error record.  The source shape is
`{message, code?, details?}`; the step runner's catch block writes
`{message, details: error}` where `details` is the thrown `Error` object,
which carries no information beyond its message in this model, and `code`
is never written by the runner, so only the message is kept. -/
structure StepError where
  message : String
deriving Repr, DecidableEq, Inhabited

/-- Embeds `RetryPolicy` from types/step.ts.  The TS interface declares
`maxAttempts` and `delayMs` as required, but `executeWithRetry` guards every
field with `|| default` and absence is representable at runtime, so each
field is optional here. -/
structure RetryPolicy where
  maxAttempts : Option Nat := none
  delayMs : Option Nat := none
  backoffMultiplier : Option Nat := none
deriving Repr, DecidableEq

/-- Step type union from types/step.ts. -/
inductive StepType where
  | connector | transformer | condition | parallel
deriving Repr, DecidableEq

/-- Embeds `StepDefinition` from types/step.ts (the `name` field is carried but
never read by the engine). -/
structure StepDefinition where
  id : String
  name : String
  type : StepType
  config : JObject
  parameters : Option JObject := none
  retryPolicy : Option RetryPolicy := none
  timeout : Option Nat := none
  dependsOn : Option (List String) := none
deriving Repr

/-- Embeds `StepExecution` from types/step.ts. -/
structure StepExecution where
  stepId : String
  status : StepStatus
  input : JObject
  output : Option JObject := none
  error : Option StepError := none
  startedAt : Date := {}
  completedAt : Option Date := none
  attempts : Nat
deriving Repr, DecidableEq, Inhabited

/-- Connector-level error from base.connector.ts (`details` dropped: it is
diagnostic payload never read by the engine). -/
structure ConnectorError where
  message : String
  code : Option String := none
deriving Repr, DecidableEq

/-- Embeds `ConnectorResult` from base.connector.ts.  `data` defaults to the JS
`undefined` of an absent field. -/
structure ConnectorResult where
  success : Bool
  data : JValue := .undefined
  error : Option ConnectorError := none
deriving Repr, DecidableEq

/-- A connector is an external-system adapter
(`execute(config, input) -> ConnectorResult`), modelled as a function of the
resolved config and input. -/
abbrev Connector := JObject → JObject → ConnectorResult

/-- The step runner's connector map: type name to connector instance. -/
abbrev Registry := String → Option Connector

/-- Embeds `StepRunner.executeConnector`: look up `config.connectorType || 'http'`
in the registry, run the connector, wrap its data as `{data: result.data}`,
and surface lookup failure or `success:false` as a thrown error
(`result.error?.message || 'Connector execution failed'`).  A truthy
non-string `connectorType` misses the string-keyed map and stringifies into
the not-found message. -/
def executeConnector (reg : Registry) (config input : JObject) :
    Except String JObject :=
  let connectorType : JValue :=
    match objGet config ("connectorType") with
    | some v => if jsTruthy v then v else .str ("http")
    | none => .str ("http")
  match connectorType with
  | .str ct =>
      match reg ct with
      | none => .error ("Connector not found: " ++ ct)
      | some conn =>
          let result := conn config input
          if result.success then
            .ok ([(("data" : String), result.data)])
          else
            .error (match result.error with
              | some e =>
                  if e.message = "" then ("Connector execution failed")
                  else e.message
              | none => "Connector execution failed")
  | v => .error ("Connector not found: " ++ jsToString v)

/-- Embeds `JsonTransformer.getValueByPath`: guard `!obj || typeof obj !== 'object'`
then the same walk as the resolver's nested lookup. -/
def getValueByPath (obj : JValue) (path : String) : JValue :=
  match obj with
  | .obj _ => walkPath obj (jsSplitDot path)
  | .arr _ => walkPath obj (jsSplitDot path)
  | _ => .undefined

/-- Embeds `JsonTransformer.setValueByPath`: walk/create intermediate objects for
every path part but the last, then assign the last part.  Stepping into a
key bound to a non-object primitive (or to `undefined`) makes the JS `in`
operator or the strict-mode assignment throw a TypeError; an intermediate
array value would accept expando properties a `JValue` array cannot carry —
no mapping in scope produces one, and it is modelled as the same failure. -/
def setValueByPath (obj : JObject) :
    List String → String → JValue → Except String JObject
  | [], lastPart, v => .ok (objSet obj lastPart v)
  | part :: rest, lastPart, v =>
      match objGet obj part with
      | none =>
          match setValueByPath [] rest lastPart v with
          | .ok inner => .ok (objSet obj part (.obj inner))
          | .error e => .error e
      | some (.obj inner) =>
          match setValueByPath inner rest lastPart v with
          | .ok inner' => .ok (objSet obj part (.obj inner'))
          | .error e => .error e
      | some _ => .error ("Cannot convert to object")

/-- The entry loop of `JsonTransformer.transform`: copy the value at each
source path to the corresponding output path.  A non-string mapping value
makes `path.split('.')` throw. -/
def transformEntries (input : JObject) :
    JObject → JObject → Except String JObject
  | [], result => .ok result
  | (outputKey, inputPath) :: rest, result =>
      match inputPath with
      | .str p =>
          let value := getValueByPath (.obj input) p
          let parts := jsSplitDot outputKey
          match setValueByPath result parts.dropLast (parts.getLastD ("")) value with
          | .ok result' => transformEntries input rest result'
          | .error e => .error e
      | _ => .error ("inputPath.split is not a function")

/-- Embeds `JsonTransformer.transform`. -/
def transform (input : JObject) (mapping : JObject) : Except String JObject :=
  transformEntries input mapping []

/-- Embeds `StepRunner.executeTransformer`: `(config as any).mapping || {}` — a
missing or non-object mapping contributes no entries. -/
def executeTransformer (config input : JObject) : Except String JObject :=
  let mapping :=
    match objGet config ("mapping") with
    | some (.obj fs) => fs
    | _ => []
  transform input mapping

/-- JS strict equality `===` for the operand shapes a condition step
compares.  Objects and arrays compare by reference; the two operands here
come from disjoint object graphs (step config vs step input), so a
reference match cannot occur and those cases are `false`. -/
def jsStrictEq : JValue → JValue → Bool
  | .undefined, .undefined => true
  | .null, .null => true
  | .bool a, .bool b => a = b
  | .num a, .num b => a = b
  | .str a, .str b => a = b
  | _, _ => false

/-- JS `ToPrimitive` followed by the string test of the abstract relational
comparison: strings stay themselves, arrays and objects stringify. -/
def toPrimitiveStr : JValue → Option String
  | .str s => some s
  | .arr items => some (jsToString (.arr items))
  | .obj _ => some ("[object Object]")
  | _ => none

/-- JS `ToNumber` restricted to integral results; `none` stands for `NaN`
(and for the non-integral numeric strings no claim exercises). -/
def toNumberInt : JValue → Option Int
  | .null => some 0
  | .bool b => some (if b then 1 else 0)
  | .num n => some n
  | .str s =>
      let t := s.trim
      if t = "" then some 0 else t.toInt?
  | .undefined => none
  | .arr items =>
      let t := (jsToString (.arr items)).trim
      if t = "" then some 0 else t.toInt?
  | .obj _ => none

/-- JS `<` (abstract relational comparison): two strings compare
lexicographically by code unit, otherwise both sides convert to numbers and
compare; a `NaN` on either side yields `false`. -/
def jsLess (a b : JValue) : Bool :=
  match toPrimitiveStr a, toPrimitiveStr b with
  | some sa, some sb => decide (sa < sb)
  | _, _ =>
      match toNumberInt a, toNumberInt b with
      | some x, some y => decide (x < y)
      | _, _ => false

/-- JS `a > b` is the relational comparison with the operands swapped. -/
def jsGreater (a b : JValue) : Bool := jsLess b a

/-- Property read used by the destructuring
`const {field, operator, value} = condition`: primitives box to objects
with no own properties, so non-objects yield `undefined`. -/
def getProp (v : JValue) (k : String) : JValue :=
  match v with
  | .obj fields =>
      match objGet fields k with
      | some x => x
      | none => .undefined
  | _ => .undefined

/-- Embeds `StepRunner.evaluateCondition`: a falsy condition is vacuously true;
otherwise evaluate `{field, operator, value}` against the input (the
property key is `String(field)`, as JS computed access stringifies). -/
def evaluateCondition (condition : JValue) (input : JObject) : Bool :=
  if ¬ jsTruthy condition then true
  else
    let field := getProp condition ("field")
    let operator := getProp condition ("operator")
    let value := getProp condition ("value")
    let fieldValue :=
      match objGet input (jsToString field) with
      | some v => v
      | none => .undefined
    match operator with
    | .str op =>
        if op = "eq" then jsStrictEq fieldValue value
        else if op = "ne" then ! jsStrictEq fieldValue value
        else if op = "gt" then jsGreater fieldValue value
        else if op = "lt" then jsLess fieldValue value
        else if op = "contains" then
          decide ((jsToString value).data <:+: (jsToString fieldValue).data)
        else true
    | _ => true

/-- Embeds `StepRunner.executeCondition`: evaluate `config.condition` and return
`{conditionMet}`; the run context argument is accepted and ignored, as in
the source. -/
def executeCondition (config input : JObject) (_context : JObject) : JObject :=
  let condition :=
    match objGet config ("condition") with
    | some v => v
    | none => .undefined
  [(("conditionMet" : String), .bool (evaluateCondition condition input))]

/-- The dispatch switch of `StepRunner.executeStep`; an unknown step type
throws `Unsupported step type: <type>`. -/
def executeStepBody (reg : Registry) (stepType : StepType)
    (resolvedConfig resolvedInput context : JObject) : Except String JObject :=
  match stepType with
  | .connector => executeConnector reg resolvedConfig resolvedInput
  | .transformer => executeTransformer resolvedConfig resolvedInput
  | .condition => .ok (executeCondition resolvedConfig resolvedInput context)
  | .parallel => .error ("Unsupported step type: parallel")

/-- The `resolvedConfig` local of `executeStep`: the config goes through the
resolver exactly when a ParameterContext was supplied. -/
def resolvedConfigOf (step : StepDefinition)
    (parameterContext : Option ParameterContext) : JObject :=
  match parameterContext with
  | some pc => resolve step.config pc
  | none => step.config

/-- The `resolvedInput` local of `executeStep`: when both `step.parameters`
and a ParameterContext are present, the resolved parameters are shallow-merged
over the input (parameters win); otherwise the input is passed through. -/
def resolvedInputOf (step : StepDefinition) (input : JObject)
    (parameterContext : Option ParameterContext) : JObject :=
  match parameterContext, step.parameters with
  | some pc, some params => jsSpreadMerge input (resolve params pc)
  | _, _ => input

/-- Embeds `StepRunner.executeStep` (single attempt): resolve config and parameters
when a `ParameterContext` is supplied (resolved parameters merge over the
input, parameters winning), dispatch on the step type, and record a terminal
StepExecution — every thrown error is captured, never re-thrown.  The
recorded `input` is the argument as given, not the resolved input. -/
def executeStep (reg : Registry) (step : StepDefinition) (input : JObject)
    (context : JObject) (parameterContext : Option ParameterContext) :
    StepExecution :=
  let resolvedConfig := resolvedConfigOf step parameterContext
  let resolvedInput := resolvedInputOf step input parameterContext
  match executeStepBody reg step.type resolvedConfig resolvedInput context with
  | .ok output =>
      { stepId := step.id, status := .completed, input := input,
        output := some output, startedAt := Date.now,
        completedAt := some Date.now, attempts := 1 }
  | .error msg =>
      { stepId := step.id, status := .failed, input := input,
        error := some { message := msg }, startedAt := Date.now,
        completedAt := some Date.now, attempts := 1 }

/-- JS `x || d` for an optionally-present number: `undefined` and `0` are
falsy, so both fall back to the default (this is `||`, not `??`). -/
def jsOrNat (x : Option Nat) (d : Nat) : Nat :=
  match x with
  | some v => if v = 0 then d else v
  | none => d

/-- One iteration body of the retry loop: a fresh single-attempt execution
with `attempts` overwritten to the current attempt number.  The registry is
indexed by the attempt number: connectors are external I/O whose outcome may
differ between retries (a failure on attempt 1 may be followed by a success
on attempt 2). -/
def singleAttempt (regAt : Nat → Registry) (step : StepDefinition)
    (input context : JObject) (parameterContext : Option ParameterContext)
    (attempt : Nat) : StepExecution :=
  { executeStep (regAt attempt) step input context parameterContext with
      attempts := attempt }

/-- The `for (attempt = 1; attempt <= maxAttempts; ...)` loop of
`StepRunner.executeWithRetry`, with `remaining` the number of attempts still
allowed after the current one.  Returns the StepExecution the source
returns, paired with the list of `sleep(currentDelay)` durations awaited
between failed attempts, in order, to make the retry timing observable. -/
def retryLoop (regAt : Nat → Registry) (step : StepDefinition)
    (input context : JObject) (parameterContext : Option ParameterContext)
    (backoffMultiplier : Nat) :
    Nat → Nat → Nat → StepExecution × List Nat
  | attempt, remaining, currentDelay =>
    let lastExecution :=
      singleAttempt regAt step input context parameterContext attempt
    if lastExecution.status = .completed then (lastExecution, [])
    else
      match remaining with
      | 0 => (lastExecution, [])
      | r + 1 =>
          let next := retryLoop regAt step input context parameterContext
            backoffMultiplier (attempt + 1) r (currentDelay * backoffMultiplier)
          (next.1, currentDelay :: next.2)

/-- Embeds `StepRunner.executeWithRetry`: defaults are taken with JS `||`
(`step.retryPolicy?.maxAttempts || 1`, `delayMs || 1000`,
`backoffMultiplier || 1`), then the 1-based attempt loop runs; the effective
attempt count is always at least one. -/
def executeWithRetry (regAt : Nat → Registry) (step : StepDefinition)
    (input context : JObject) (parameterContext : Option ParameterContext) :
    StepExecution × List Nat :=
  let maxAttempts := jsOrNat (step.retryPolicy.bind fun rp => rp.maxAttempts) 1
  let delayMs := jsOrNat (step.retryPolicy.bind fun rp => rp.delayMs) 1000
  let backoffMultiplier :=
    jsOrNat (step.retryPolicy.bind fun rp => rp.backoffMultiplier) 1
  retryLoop regAt step input context parameterContext backoffMultiplier
    1 (maxAttempts - 1) delayMs

/-- Execution status enum from types/workflow.schema.ts. -/
inductive ExecStatus where
  | pending | running | completed | failed | cancelled
deriving Repr, DecidableEq, Inhabited

/-- Payload of the `details` field of a workflow-level error: either the
failed step's recorded error (`onError=stop` path) or the exception caught
at the top of `execute` (identified with its message). -/
inductive ErrorDetails where
  | stepError (e : StepError)
  | exception (message : String)
deriving Repr, DecidableEq

/-- Embeds `ExecutionError` from types/workflow.schema.ts (fields the executor
writes). -/
structure ExecutionError where
  message : String
  stepId : Option String := none
  details : Option ErrorDetails := none
deriving Repr, DecidableEq

/-- Embeds `WorkflowExecution` from types/workflow.schema.ts (the `metadata` bag is
never touched by the executor and is omitted). -/
structure WorkflowExecution where
  id : String
  workflowId : String
  status : ExecStatus
  input : JObject
  output : Option JObject := none
  stepExecutions : List StepExecution := []
  startedAt : Date := {}
  completedAt : Option Date := none
  error : Option ExecutionError := none
deriving Repr, DecidableEq, Inhabited

/-- Embeds `onError` policy values from types/workflow.ts. -/
inductive OnError where
  | stop | continue' | retry
deriving Repr, DecidableEq

/-- Embeds `ErrorHandlingConfig` from types/workflow.ts. -/
structure ErrorHandlingConfig where
  onError : Option OnError := none
  maxRetries : Option Nat := none
  fallbackStep : Option String := none
deriving Repr, DecidableEq

/-- Trigger type union from types/workflow.ts. -/
inductive TriggerType where
  | manual | webhook | schedule | event
deriving Repr, DecidableEq

/-- Embeds `TriggerConfig` from types/workflow.ts (opaque config blob). -/
structure TriggerConfig where
  type : TriggerType
  config : Option JObject := none
deriving Repr

/-- Embeds `WorkflowDefinition` from types/workflow.ts (metadata/timestamps, which
the executor never reads, are omitted). -/
structure WorkflowDefinition where
  id : String
  name : String
  version : String
  description : Option String := none
  trigger : TriggerConfig := { type := .manual }
  steps : List StepDefinition
  errorHandling : Option ErrorHandlingConfig := none
deriving Repr

/-- Embeds `workflow.errorHandling?.onError || 'stop'` (the enum's string values
are never empty, so `||` and `??` agree here). -/
def errorHandlingOf (workflow : WorkflowDefinition) : OnError :=
  match workflow.errorHandling with
  | some eh =>
      match eh.onError with
      | some oe => oe
      | none => .stop
  | none => .stop

/-- The optional `ExecutionEventEmitter` of executor.ts.  Its `emit` method
may throw (modelled as `Except.error` of the thrown message); the payload
argument is not modelled because no behavior in scope depends on it, only
on whether emission throws. -/
abbrev Emitter := String → Except String Unit

/-- Embeds `WorkflowExecutor.emitEvent`: forward to the emitter when one is
configured, otherwise do nothing. -/
def emitEvent (emitter : Option Emitter) (event : String) :
    Except String Unit :=
  match emitter with
  | some e => e event
  | none => .ok ()

/-- Embeds `WorkflowExecutor.getStepInput`: no (or empty) `dependsOn` passes the
workflow input through; otherwise start from a copy of the workflow input
and `Object.assign` in the output of each listed dependency's first
recorded StepExecution, in list order — a dependency with no recorded
entry, or whose entry has no output, contributes nothing. -/
def getStepInput (execution : WorkflowExecution) (step : StepDefinition)
    (workflowInput : JObject) : JObject :=
  match step.dependsOn with
  | none => workflowInput
  | some [] => workflowInput
  | some deps =>
      deps.foldl (fun input dependencyId =>
        match execution.stepExecutions.find?
            (fun se => se.stepId = dependencyId) with
        | some dependencyExecution =>
            match dependencyExecution.output with
            | some out => jsSpreadMerge input out
            | none => input
        | none => input) workflowInput

/-- Embeds `WorkflowExecutor.buildOutput`: `lastStep?.output || {}` — the output of
the last StepExecution in the trace, or the empty object when there is no
trace entry or the last entry has no output (a present output is a JS
object, hence truthy). -/
def buildOutput (execution : WorkflowExecution) : JObject :=
  match execution.stepExecutions.getLast? with
  | some lastStep =>
      match lastStep.output with
      | some out => out
      | none => []
  | none => []

/-- The step loop inside the `try` of `WorkflowExecutor.execute`.  Returns
the execution state as mutated so far, paired with `some message` when an
exception (only emitter throws can occur here) was thrown out of the loop —
the caller's catch block observes exactly that state.  Note the source
calls `executeWithRetry(step, stepInput, context)` with no
`ParameterContext` (executor.ts line 57), so step `parameters` are never
resolved during workflow execution. -/
def runSteps (regAt : Nat → Registry) (emitter : Option Emitter)
    (workflow : WorkflowDefinition) (input context : JObject) :
    List StepDefinition → WorkflowExecution →
      WorkflowExecution × Option String
  | [], execution => (execution, none)
  | step :: rest, execution =>
      match emitEvent emitter ("step.started") with
      | .error msg => (execution, some msg)
      | .ok _ =>
          let stepInput := getStepInput execution step input
          let stepExecution :=
            (executeWithRetry regAt step stepInput context none).1
          let execution :=
            { execution with
                stepExecutions := execution.stepExecutions ++ [stepExecution] }
          match emitEvent emitter ("step.completed") with
          | .error msg => (execution, some msg)
          | .ok _ =>
              if stepExecution.status = .failed then
                if errorHandlingOf workflow = .stop then
                  ({ execution with
                      status := .failed,
                      error := some
                        { message := "Step " ++ step.id ++ " failed",
                          stepId := some step.id,
                          details := stepExecution.error.map ErrorDetails.stepError } },
                    none)
                else
                  runSteps regAt emitter workflow input context rest execution
              else
                runSteps regAt emitter workflow input context rest execution

/-- Embeds `WorkflowExecutor.execute`.  The generated unique id is a parameter
(`execId`).  The `execution.started` and `execution.completed` emissions sit
outside the `try`/`catch`, so an emitter throw there rejects the returned
promise (`Except.error`); every exception inside the loop is caught and
recorded on the execution, which is then returned. -/
def execute (regAt : Nat → Registry) (emitter : Option Emitter)
    (execId : String) (workflow : WorkflowDefinition) (input : JObject) :
    Except String WorkflowExecution :=
  let execution : WorkflowExecution :=
    { id := execId, workflowId := workflow.id, status := .running,
      input := input, stepExecutions := [], startedAt := Date.now }
  match emitEvent emitter ("execution.started") with
  | .error msg => .error msg
  | .ok _ =>
      let context : JObject :=
        [(("workflowId" : String), .str workflow.id),
         (("executionId" : String), .str execId)]
      let loopResult :=
        runSteps regAt emitter workflow input context workflow.steps execution
      let execution :=
        match loopResult.2 with
        | some msg =>
            { loopResult.1 with
                status := .failed,
                error := some
                  { message := msg, details := some (.exception msg) } }
        | none =>
            if loopResult.1.status = ExecStatus.running then
              { loopResult.1 with
                  status := .completed,
                  output := some (buildOutput loopResult.1) }
            else loopResult.1
      let execution := { execution with completedAt := some Date.now }
      match emitEvent emitter ("execution.completed") with
      | .error msg => .error msg
      | .ok _ => .ok execution

/-- Extract the execution from a non-rejected `execute` result. -/
def getOk (r : Except String WorkflowExecution) : WorkflowExecution :=
  match r with
  | .ok ex => ex
  | .error _ => default

/-- Zod config schema of the JavaScript connector
(`z.object({timeout: z.number().optional().default(5000)})`): unknown keys
are stripped, `timeout` must be a number (or absent/undefined). -/
def jsConfigValid (config : JObject) : Bool :=
  match objGet config ("timeout") with
  | none => true
  | some .undefined => true
  | some (.num _) => true
  | some _ => false

/-- Zod input schema of the JavaScript connector: `code` a string of length
at least 1, `context` an optional record (absent/undefined or a plain
object). -/
def jsInputValid (input : JObject) : Bool :=
  (match objGet input ("code") with
   | some (.str s) => decide (1 ≤ s.length)
   | _ => false)
  && (match objGet input ("context") with
      | none => true
      | some .undefined => true
      | some (.obj _) => true
      | some _ => false)

/-- Embeds `JavaScriptConnector.execute` from javascript.connector.ts: validate the
config then the input with the zod schemas above, sanitize the user context
(every `JValue` shape passes the sanitizer except `undefined`-bound
entries, which are dropped), then run the code in the vm sandbox.  The
sandbox evaluation of arbitrary user code is external to this development
and is a parameter: `Except.ok v` is the wrapped code's captured
`__result`, `Except.error m` a throw inside the sandbox (timeout
included). -/
def javascriptConnector
    (evalJs : String → JObject → Except String JValue) : Connector :=
  fun config input =>
    if ¬ jsConfigValid config then
      { success := false,
        error := some
          { message := "Invalid configuration",
            code := some ("INVALID_CONFIG") } }
    else if ¬ jsInputValid input then
      { success := false,
        error := some
          { message := "Invalid input", code := some ("INVALID_INPUT") } }
    else
      let code :=
        match objGet input ("code") with
        | some (.str s) => s
        | _ => ""
      let sanitizedContext :=
        match objGet input ("context") with
        | some (.obj fields) => fields.filter (fun p => ¬ p.2 = JValue.undefined)
        | _ => []
      match evalJs code sanitizedContext with
      | .ok v => { success := true, data := v }
      | .error msg =>
          { success := false,
            error := some
              { message := msg, code := some ("EXECUTION_ERROR") } }

/-- The end-to-end workflow `wf1` from the spec's §8 scenario: one
javascript-connector step with `parameters` `{code, context:{a:2,b:3}}`. -/
def wf1Step : StepDefinition :=
  { id := "s1", name := "s1", type := .connector,
    config := [(("connectorType" : String), .str ("javascript"))],
    parameters := some
      [(("code" : String), .str ("return \x7bsum: a+b\x7d;")),
       (("context" : String),
        .obj [(("a" : String), .num 2), (("b" : String), .num 3)])] }

def wf1 : WorkflowDefinition :=
  { id := "wf1", name := "wf1", version := "1.0.0", steps := [wf1Step] }

/-- A registry carrying the javascript connector, as the StepRunner
constructor registers it (the other six connectors are unreferenced by the
claims). -/
def wf1Registry (evalJs : String → JObject → Except String JValue) :
    Registry :=
  fun t => if t = "javascript" then some (javascriptConnector evalJs)
           else none

/-- C1: refuted by the code — `WorkflowExecutor.execute` calls
`executeWithRetry(step, stepInput, context)` with no `ParameterContext`
(executor.ts line 57), so step `parameters` are never resolved or merged.
On the spec's own end-to-end scenario (`wf1` on input `{}`), the javascript
connector receives the bare input `{}` with no `code`, its input validation
fails, and the execution ends `failed` with no output — not `completed`
with `{data:{sum:5}}` — for every possible sandbox evaluator (the sandbox
is never reached). -/
theorem c1_executor_ignores_parameters
    (evalJs : String → JObject → Except String JValue) :
    execute (fun _ => wf1Registry evalJs) none ("exec-1") wf1 [] =
      Except.ok
        { id := "exec-1", workflowId := "wf1", status := .failed,
          input := [],
          stepExecutions :=
            [{ stepId := "s1", status := .failed, input := [],
               error := some { message := "Invalid input" },
               startedAt := {}, completedAt := some {}, attempts := 1 }],
          startedAt := {}, completedAt := some {},
          error := some
            { message := "Step s1 failed", stepId := some ("s1"),
              details := some (.stepError { message := "Invalid input" }) } } :=
  rfl

/-- C2: refuted by the code — the `execution.started` emission happens
before the `try` block of `execute` (and `execution.completed` after it),
so an emitter whose `emit` throws makes `execute` reject instead of
returning a failed WorkflowExecution: emission failure aborts the
execution, for every workflow, input and registry. -/
theorem c2_throwing_emitter_rejects
    (regAt : Nat → Registry) (execId : String)
    (workflow : WorkflowDefinition) (input : JObject) (msg : String) :
    execute regAt (some (fun _ => .error msg)) execId workflow input =
      Except.error msg :=
  rfl

/-- A step whose retry policy explicitly sets `delayMs` to `0` (with two
attempts so that one inter-attempt delay occurs); its connector config is
empty, so the default `http` lookup fails on an empty registry and every
attempt fails. -/
def c5Step : StepDefinition :=
  { id := "f1", name := "f1", type := .connector, config := [],
    retryPolicy := some { maxAttempts := some 2, delayMs := some 0 } }

/-- A registry with no connectors at all, at every attempt. -/
def emptyRegistryAt : Nat → Registry := fun _ _ => none

theorem retryLoop_sleeps_shape (regAt : Nat → Registry)
    (step : StepDefinition) (input context : JObject)
    (pctx : Option ParameterContext) (b : Nat) :
    ∀ a r d, (retryLoop regAt step input context pctx b a r d).2 = [] ∨
      (retryLoop regAt step input context pctx b a r d).2.head? = some d := by
  intro a r d
  rw [retryLoop.eq_def]
  by_cases hc :
      (singleAttempt regAt step input context pctx a).status = .completed
  · simp [hc]
  · cases r with
    | zero => simp [hc]
    | succ r' => simp [hc]

/-- C5 counterexample: the code takes retry defaults with JS `||`, not `??`,
so an explicit `delayMs: 0` is falsy and falls back to the 1000 ms default:
on `c5Step` (two failing attempts, `delayMs = 0`) the single inter-attempt
sleep is 1000 ms, not 0 ms as the claim states. -/
theorem c5_counterexample :
    c5Step.retryPolicy.bind (fun rp => rp.delayMs) = some 0 ∧
    (executeWithRetry emptyRegistryAt c5Step [] [] none).2 = [1000] ∧
    (executeWithRetry emptyRegistryAt c5Step [] [] none).2 ≠ [0] :=
  ⟨rfl, rfl, by decide⟩

/-- C5 (amended): retry-policy defaults apply when a field is absent or
zero/falsy (JS `||` semantics); in particular for a step whose retryPolicy
sets `delayMs = 0`, any delay that occurs between consecutive failed
attempts starts at the default 1000 ms, not 0. -/
theorem c5_zero_delay_uses_default (regAt : Nat → Registry)
    (step : StepDefinition) (input context : JObject)
    (pctx : Option ParameterContext)
    (h : step.retryPolicy.bind (fun rp => rp.delayMs) = some 0) :
    (executeWithRetry regAt step input context pctx).2 = [] ∨
    (executeWithRetry regAt step input context pctx).2.head? = some 1000 := by
  unfold executeWithRetry
  rw [h]
  simp only [jsOrNat, if_pos rfl]
  exact retryLoop_sleeps_shape regAt step input context pctx _ _ _ _

/-- Witness for `c5_zero_delay_uses_default` at `c5Step` on the empty
registry. -/
theorem c5_zero_delay_uses_default_witness :
    c5Step.retryPolicy.bind (fun rp => rp.delayMs) = some 0 ∧
    ((executeWithRetry emptyRegistryAt c5Step [] [] none).2 = [] ∨
     (executeWithRetry emptyRegistryAt c5Step [] [] none).2.head? =
       some 1000) :=
  ⟨rfl, c5_zero_delay_uses_default emptyRegistryAt c5Step [] [] none rfl⟩

theorem executeStep_status (reg : Registry) (step : StepDefinition)
    (input context : JObject) (pctx : Option ParameterContext) :
    (executeStep reg step input context pctx).status = .completed ∨
    (executeStep reg step input context pctx).status = .failed := by
  unfold executeStep
  cases hb : executeStepBody reg step.type (resolvedConfigOf step pctx)
      (resolvedInputOf step input pctx) context <;> simp [hb]

theorem singleAttempt_status (regAt : Nat → Registry) (step : StepDefinition)
    (input context : JObject) (pctx : Option ParameterContext) (i : Nat) :
    (singleAttempt regAt step input context pctx i).status = .completed ∨
    (singleAttempt regAt step input context pctx i).status = .failed :=
  executeStep_status (regAt i) step input context pctx

theorem retryLoop_first_success (regAt : Nat → Registry)
    (step : StepDefinition) (input context : JObject)
    (pctx : Option ParameterContext) (b : Nat) :
    ∀ (r a d k : Nat), a ≤ k → k ≤ a + r →
      (∀ i, a ≤ i → i < k →
        (singleAttempt regAt step input context pctx i).status ≠ .completed) →
      (singleAttempt regAt step input context pctx k).status = .completed →
      (retryLoop regAt step input context pctx b a r d).1 =
        singleAttempt regAt step input context pctx k := by
  intro r
  induction r with
  | zero =>
      intro a d k h1 h2 _ _
      have hk : k = a := by omega
      subst hk
      rw [retryLoop.eq_def]
      by_cases hc :
          (singleAttempt regAt step input context pctx k).status = .completed
      · simp [hc]
      · simp [hc]
  | succ r' ih =>
      intro a d k h1 h2 hfail hsucc
      rw [retryLoop.eq_def]
      by_cases hc :
          (singleAttempt regAt step input context pctx a).status = .completed
      · have hk : k = a := by
          by_contra hne
          exact (hfail a le_rfl (by omega)) hc
        subst hk
        simp [hc]
      · simp only [hc, if_false, if_neg hc]
        have hka : a ≠ k := fun h => hc (h ▸ hsucc)
        exact ih (a + 1) (d * b) k (by omega) (by omega)
          (fun i hi1 hi2 => hfail i (by omega) hi2) hsucc

theorem retryLoop_all_fail (regAt : Nat → Registry) (step : StepDefinition)
    (input context : JObject) (pctx : Option ParameterContext) (b : Nat) :
    ∀ (r a d : Nat),
      (∀ i, a ≤ i → i ≤ a + r →
        (singleAttempt regAt step input context pctx i).status ≠ .completed) →
      (retryLoop regAt step input context pctx b a r d).1 =
        singleAttempt regAt step input context pctx (a + r) := by
  intro r
  induction r with
  | zero =>
      intro a d _
      rw [retryLoop.eq_def]
      by_cases hc :
          (singleAttempt regAt step input context pctx a).status = .completed
      · simp [hc]
      · simp [hc]
  | succ r' ih =>
      intro a d hfail
      rw [retryLoop.eq_def]
      have hc : ¬ (singleAttempt regAt step input context pctx a).status =
          .completed := hfail a le_rfl (by omega)
      simp only [hc, if_false, if_neg hc]
      have : a + (r' + 1) = (a + 1) + r' := by omega
      rw [this]
      exact ih (a + 1) (d * b) (fun i hi1 hi2 => hfail i (by omega) (by omega))

/-- C4: with `retryPolicy.maxAttempts = m` (m ≥ 1), `executeWithRetry`
performs single-attempt executions for attempts 1.. in order, stamps the
current attempt number into `attempts`, returns the first attempt that
completes (a success on attempt k yields that attempt's StepExecution with
`attempts = k`, no further attempts run — attempts above k are never
consulted), and when all m attempts fail it returns the last failed
StepExecution with `attempts = m`. -/
theorem c4_retry_policy (regAt : Nat → Registry) (step : StepDefinition)
    (input context : JObject) (pctx : Option ParameterContext) (m : Nat)
    (hm : step.retryPolicy.bind (fun rp => rp.maxAttempts) = some m)
    (h1 : 1 ≤ m) :
    (∀ k, 1 ≤ k → k ≤ m →
      (∀ i, 1 ≤ i → i < k →
        (singleAttempt regAt step input context pctx i).status ≠ .completed) →
      (singleAttempt regAt step input context pctx k).status = .completed →
        (executeWithRetry regAt step input context pctx).1 =
          singleAttempt regAt step input context pctx k ∧
        (executeWithRetry regAt step input context pctx).1.attempts = k ∧
        (executeWithRetry regAt step input context pctx).1.status =
          .completed)
    ∧ ((∀ i, 1 ≤ i → i ≤ m →
        (singleAttempt regAt step input context pctx i).status ≠ .completed) →
        (executeWithRetry regAt step input context pctx).1 =
          singleAttempt regAt step input context pctx m ∧
        (executeWithRetry regAt step input context pctx).1.attempts = m ∧
        (executeWithRetry regAt step input context pctx).1.status =
          .failed) := by
  have hmax : jsOrNat (step.retryPolicy.bind fun rp => rp.maxAttempts) 1 = m := by
    rw [hm]; simp [jsOrNat]; omega
  constructor
  · intro k hk1 hk2 hfail hsucc
    have heq : (executeWithRetry regAt step input context pctx).1 =
        singleAttempt regAt step input context pctx k := by
      unfold executeWithRetry
      rw [hmax]
      exact retryLoop_first_success regAt step input context pctx _ (m - 1) 1 _
        k hk1 (by omega) hfail hsucc
    refine ⟨heq, ?_, ?_⟩
    · rw [heq]; rfl
    · rw [heq]; exact hsucc
  · intro hfail
    have heq : (executeWithRetry regAt step input context pctx).1 =
        singleAttempt regAt step input context pctx m := by
      unfold executeWithRetry
      rw [hmax]
      have := retryLoop_all_fail regAt step input context pctx
        (jsOrNat (step.retryPolicy.bind fun rp => rp.backoffMultiplier) 1)
        (m - 1) 1
        (jsOrNat (step.retryPolicy.bind fun rp => rp.delayMs) 1000)
        (fun i hi1 hi2 => hfail i hi1 (by omega))
      rw [this]
      congr 1
      omega
    refine ⟨heq, ?_, ?_⟩
    · rw [heq]; rfl
    · rw [heq]
      rcases singleAttempt_status regAt step input context pctx m with h | h
      · exact absurd h (hfail m h1 le_rfl)
      · exact h

/-- A connector step retried up to 3 times (spec's retry short-circuit
scenario). -/
def c4Step : StepDefinition :=
  { id := "r1", name := "r1", type := .connector, config := [],
    retryPolicy := some { maxAttempts := some 3 } }

/-- A connector that always succeeds with `data: null`. -/
def alwaysOkConnector : Connector := fun _ _ => { success := true, data := .null }

/-- External world that makes the step's `http` connector exist only from
the second attempt on: attempt 1 fails (`Connector not found`), attempt 2
succeeds. -/
def c4RegAt : Nat → Registry :=
  fun attempt _ => if 2 ≤ attempt then some alwaysOkConnector else none

/-- Witness for `c4_retry_policy`: a step that fails on attempt 1 and
succeeds on attempt 2 under `maxAttempts = 3` yields `attempts = 2`,
`status = completed`. -/
theorem c4_retry_policy_witness :
    c4Step.retryPolicy.bind (fun rp => rp.maxAttempts) = some 3 ∧
    (executeWithRetry c4RegAt c4Step [] [] none).1.attempts = 2 ∧
    (executeWithRetry c4RegAt c4Step [] [] none).1.status = .completed := by
  have h := (c4_retry_policy c4RegAt c4Step [] [] none 3 rfl (by decide)).1
    2 (by decide) (by decide)
    (fun i hi1 hi2 => by
      have hi : i = 1 := by omega
      subst hi
      decide)
    (by decide)
  exact ⟨rfl, h.2.1, h.2.2⟩

/-- Left-biased choice on optional values (`x !== undefined ? x : y`). -/
def orOpt (x y : Option JValue) : Option JValue :=
  match x with
  | some v => some v
  | none => y

/-- What a single dependency contributes at key `k`: the value at `k` of the
output of its first recorded StepExecution, if any. -/
def depContribution (execution : WorkflowExecution) (dependencyId k : String) :
    Option JValue :=
  match execution.stepExecutions.find? (fun se => se.stepId = dependencyId) with
  | some dependencyExecution =>
      match dependencyExecution.output with
      | some out => objGet out k
      | none => none
  | none => none

/-- The claim's merge order as a lookup: the value at `k` contributed by the
latest dependency in the list that defines it (later dependencies override
earlier ones; dependencies without recorded output contribute nothing). -/
def depsLookup (execution : WorkflowExecution) (deps : List String)
    (k : String) : Option JValue :=
  match deps with
  | [] => none
  | d :: rest =>
      orOpt (depsLookup execution rest k) (depContribution execution d k)

theorem orOpt_assoc (x y z : Option JValue) :
    orOpt (orOpt x y) z = orOpt x (orOpt y z) := by
  cases x <;> simp [orOpt]

theorem objGet_eq_none_of_not_mem (o : JObject) (k : String)
    (h : k ∉ o.map Prod.fst) : objGet o k = none := by
  induction o with
  | nil => rfl
  | cons p rest ih =>
      obtain ⟨k0, v0⟩ := p
      simp only [List.map_cons, List.mem_cons] at h
      push_neg at h
      have hne : ¬ (k0 = k) := fun he => h.1 he.symm
      rw [objGet, if_neg hne]
      exact ih h.2

theorem objGet_objSet (o : JObject) (k : String) (v : JValue) (k' : String) :
    objGet (objSet o k v) k' = if k = k' then some v else objGet o k' := by
  induction o with
  | nil => simp [objSet, objGet]
  | cons p rest ih =>
      obtain ⟨k0, v0⟩ := p
      by_cases h0 : k0 = k
      · subst h0
        rw [objSet, if_pos rfl]
        by_cases h1 : k0 = k'
        · rw [objGet, if_pos h1, if_pos h1]
        · rw [objGet, if_neg h1, if_neg h1, objGet, if_neg h1]
      · rw [objSet, if_neg h0]
        by_cases h1 : k0 = k'
        · subst h1
          have hne : ¬ (k = k0) := fun he => h0 he.symm
          rw [objGet, if_pos rfl, if_neg hne, objGet, if_pos rfl]
        · rw [objGet, if_neg h1, ih, objGet, if_neg h1]

theorem objGet_jsSpreadMerge (b : JObject) :
    ∀ a : JObject, (b.map Prod.fst).Nodup → ∀ k,
      objGet (jsSpreadMerge a b) k = orOpt (objGet b k) (objGet a k) := by
  induction b with
  | nil => intro a _ k; cases h : objGet a k <;> simp [jsSpreadMerge, objGet, orOpt, h]
  | cons p rest ih =>
      intro a hnd k
      obtain ⟨k0, v0⟩ := p
      simp only [List.map_cons, List.nodup_cons] at hnd
      have hmerge : jsSpreadMerge a ((k0, v0) :: rest) =
          jsSpreadMerge (objSet a k0 v0) rest := rfl
      rw [hmerge, ih (objSet a k0 v0) hnd.2 k, objGet_objSet]
      by_cases h0 : k0 = k
      · subst h0
        have : objGet rest k0 = none :=
          objGet_eq_none_of_not_mem rest k0 hnd.1
        simp [objGet, this, orOpt]
      · simp [objGet, if_neg h0, orOpt]

theorem objGet_getStepInput_fold (execution : WorkflowExecution)
    (hout : ∀ se ∈ execution.stepExecutions, ∀ out, se.output = some out →
      (out.map Prod.fst).Nodup) :
    ∀ (deps : List String) (acc : JObject) (k : String),
      objGet (deps.foldl (fun input dependencyId =>
        match execution.stepExecutions.find?
            (fun se => se.stepId = dependencyId) with
        | some dependencyExecution =>
            match dependencyExecution.output with
            | some out => jsSpreadMerge input out
            | none => input
        | none => input) acc) k =
      orOpt (depsLookup execution deps k) (objGet acc k) := by
  intro deps
  induction deps with
  | nil => intro acc k; simp [depsLookup, orOpt]
  | cons d rest ih =>
      intro acc k
      rw [List.foldl_cons, ih, depsLookup, orOpt_assoc]
      have hstep :
          ∀ b : JObject,
            objGet b k = orOpt (depContribution execution d k) (objGet acc k) →
            orOpt (depsLookup execution rest k) (objGet b k) =
              orOpt (depsLookup execution rest k)
                (orOpt (depContribution execution d k) (objGet acc k)) :=
        fun b hb => by rw [hb]
      apply hstep
      unfold depContribution
      cases hf : execution.stepExecutions.find? (fun se => se.stepId = d) with
      | none => simp [orOpt]
      | some se =>
          cases hop : se.output with
          | none => simp [hop, orOpt]
          | some out =>
              simp only [hop]
              exact objGet_jsSpreadMerge out acc
                (hout se (List.mem_of_find?_eq_some hf) out hop) k

/-- C7: step input resolution — with `dependsOn` absent or empty the step
input is the workflow input; otherwise it is the workflow input
shallow-merged with the outputs of the listed dependencies' recorded
StepExecutions in list order: at every key the resulting value is the
latest dependency's contribution if any dependency defines it, else the
workflow input's value, with output-less dependencies contributing
nothing.  (JS objects cannot carry duplicate keys, hence the
well-formedness hypothesis on recorded outputs.) -/
theorem c7_dependency_merge (execution : WorkflowExecution)
    (step : StepDefinition) (workflowInput : JObject)
    (hout : ∀ se ∈ execution.stepExecutions, ∀ out, se.output = some out →
      (out.map Prod.fst).Nodup) :
    ((step.dependsOn = none ∨ step.dependsOn = some []) →
      getStepInput execution step workflowInput = workflowInput)
    ∧ (∀ deps, step.dependsOn = some deps → ∀ k,
        objGet (getStepInput execution step workflowInput) k =
          orOpt (depsLookup execution deps k) (objGet workflowInput k)) := by
  constructor
  · rintro (h | h) <;> simp [getStepInput, h]
  · intro deps hdeps k
    unfold getStepInput
    rw [hdeps]
    cases deps with
    | nil => simp [depsLookup, orOpt]
    | cons d rest =>
        exact objGet_getStepInput_fold execution hout (d :: rest) workflowInput k

/-- Trace holding one completed StepExecution for step `A` with output
`{x: 1}` (the spec's dependency-merge scenario). -/
def c7Execution : WorkflowExecution :=
  { id := "e7", workflowId := "w7", status := .running,
    input := [(("y" : String), .num 2)],
    stepExecutions :=
      [{ stepId := "A", status := .completed,
         input := [(("y" : String), .num 2)],
         output := some [(("x" : String), .num 1)], attempts := 1 }] }

/-- Step `B` depending on `A`. -/
def c7StepB : StepDefinition :=
  { id := "B", name := "B", type := .connector, config := [],
    dependsOn := some [("A" : String)] }

/-- Witness for `c7_dependency_merge`: with A's output `{x:1}` and workflow
input `{y:2}`, B's resolved input carries `x = 1` (from the dependency) and
`y = 2` (from the workflow input) — i.e. `{y:2, x:1}`. -/
theorem c7_dependency_merge_witness :
    objGet (getStepInput c7Execution c7StepB [(("y" : String), .num 2)])
        ("x") = some (.num 1) ∧
    objGet (getStepInput c7Execution c7StepB [(("y" : String), .num 2)])
        ("y") = some (.num 2) ∧
    getStepInput c7Execution c7StepB [(("y" : String), .num 2)] =
      [(("y" : String), .num 2), (("x" : String), .num 1)] := by
  have h := (c7_dependency_merge c7Execution c7StepB
    [(("y" : String), .num 2)]
    (by
      intro se hse out houtp
      simp only [c7Execution, List.mem_singleton] at hse
      subst hse
      simp only [Option.some.injEq] at houtp
      rw [← houtp]
      decide)).2 [("A" : String)] rfl
  refine ⟨?_, ?_, by decide⟩
  · rw [h ("x")]; decide
  · rw [h ("y")]; decide

theorem findBrace_no_brace :
    ∀ (p suf : List Char), '\x7d' ∉ p →
      findBrace (p ++ '\x7d' :: suf) = some (p, suf) := by
  intro p
  induction p with
  | nil => intro suf _; simp [findBrace]
  | cons c rest ih =>
      intro suf h
      simp only [List.mem_cons] at h
      push_neg at h
      rw [List.cons_append, findBrace, if_neg (fun hc => h.1 hc.symm),
        ih suf h.2]

theorem interpolateChars_unresolved_token (ctx : ParameterContext)
    (p suf : List Char) (hp : p ≠ []) (hb : '\x7d' ∉ p)
    (hres : resolveParts ctx (jsSplitDot (String.mk p)) = .undefined) :
    interpolateChars ctx ('$' :: '\x7b' :: (p ++ '\x7d' :: suf)) =
      '$' :: '\x7b' :: (p ++ '\x7d' :: interpolateChars ctx suf) := by
  rw [interpolateChars, if_pos rfl]
  split
  · rename_i content rest' heq
    rw [findBrace_no_brace p suf hb] at heq
    simp only [Option.some.injEq, Prod.mk.injEq] at heq
    obtain ⟨h1, h2⟩ := heq
    subst h1
    subst h2
    simp [List.isEmpty_iff, hp, hres]
  · rename_i heq
    rw [findBrace_no_brace p suf hb] at heq
    exact absurd heq (by simp)

theorem interpolateChars_cons_ne (ctx : ParameterContext) (c : Char)
    (rest : List Char) (hc : c ≠ '$') :
    interpolateChars ctx (c :: rest) = c :: interpolateChars ctx rest := by
  cases rest with
  | nil =>
      rw [interpolateChars.eq_3 ctx c [] (fun r h => by cases h), if_neg hc]
  | cons c2 rest2 =>
      by_cases h2 : c2 = '\x7b'
      · subst h2
        rw [interpolateChars.eq_2, if_neg hc]
      · rw [interpolateChars.eq_3 ctx c (c2 :: rest2)
          (fun r h => by injection h with h1 h3; exact h2 h1), if_neg hc]

theorem interpolateChars_token_preserved (ctx : ParameterContext) :
    ∀ (pre p suf : List Char), p ≠ [] → '\x7d' ∉ p → '$' ∉ pre →
      resolveParts ctx (jsSplitDot (String.mk p)) = .undefined →
      interpolateChars ctx (pre ++ '$' :: '\x7b' :: (p ++ '\x7d' :: suf)) =
        pre ++ '$' :: '\x7b' :: (p ++ '\x7d' :: interpolateChars ctx suf) := by
  intro pre
  induction pre with
  | nil =>
      intro p suf hp hb _ hres
      simp only [List.nil_append]
      exact interpolateChars_unresolved_token ctx p suf hp hb hres
  | cons c pre' ih =>
      intro p suf hp hb hd hres
      simp only [List.mem_cons] at hd
      push_neg at hd
      rw [List.cons_append,
        interpolateChars_cons_ne ctx c _ (fun hc => hd.1 hc.symm),
        ih p suf hp hb hd.2 hres, List.cons_append]

/-- C6: unresolved references resolve to `undefined` and their tokens are
preserved verbatim.  First conjunct: any reference path whose first
dot-segment is not `workflow`, `steps` or `env` resolves to `undefined`.
Second conjunct: a `steps.<stepId>....` reference where `stepId` has no
recorded output resolves to `undefined`.  Third conjunct: any `${p}` token
whose path resolves to `undefined` is left character-for-character
unmodified by string interpolation (never blanked or removed), wherever it
occurs in the string. -/
theorem c6_unresolved_refs_preserved :
    (∀ (p : String) (ctx : ParameterContext),
      (jsSplitDot p).headD ("") ∉ [("workflow" : String), "steps", "env"] →
      resolveReference p ctx = .undefined)
    ∧ (∀ (ctx : ParameterContext) (stepId : String) (rest : List String),
        lookupStr ctx.stepExecutions stepId = none →
        resolveParts ctx (("steps" : String) :: stepId :: rest) = .undefined)
    ∧ (∀ (ctx : ParameterContext) (p pre suf : String), p ≠ "" →
        '\x7d' ∉ p.data → '$' ∉ pre.data →
        resolveReference p ctx = .undefined →
        interpolateString (pre ++ "$\x7b" ++ p ++ "\x7d" ++ suf) ctx =
          pre ++ "$\x7b" ++ p ++ "\x7d" ++ interpolateString suf ctx) := by
  refine ⟨?_, ?_, ?_⟩
  · intro p ctx h
    unfold resolveReference
    cases hsplit : jsSplitDot p with
    | nil => rfl
    | cons p0 t =>
        rw [hsplit] at h
        simp only [List.headD_cons, List.mem_cons, List.mem_singleton,
          not_or] at h
        obtain ⟨h1, h2, h3⟩ := h
        cases t with
        | nil => rfl
        | cons p1 rest =>
            rw [resolveParts, if_neg (fun hc => h1 hc.1), if_neg h2,
              if_neg (fun hc => h3.1 hc.1)]
  · intro ctx stepId rest hl
    rw [resolveParts]
    rw [if_neg (fun hc => absurd hc.1 (by decide))]
    rw [if_pos rfl]
    rw [hl]
  · intro ctx p pre suf hp hb hd hres
    have hpd : p.data ≠ [] := by
      intro h
      apply hp
      cases p with
      | mk l => simp only at h; rw [h]
    have hchars := interpolateChars_token_preserved ctx pre.data p.data
      suf.data hpd hb hd hres
    have hdata : (pre ++ "$\x7b" ++ p ++ "\x7d" ++ suf).data =
        pre.data ++ '$' :: '\x7b' :: (p.data ++ '\x7d' :: suf.data) := by
      show pre.data ++ ['$', '\x7b'] ++ p.data ++ ['\x7d'] ++ suf.data = _
      simp [List.append_assoc]
    have hrhs : (pre ++ "$\x7b" ++ p ++ "\x7d" ++ interpolateString suf ctx) =
        String.mk (pre.data ++ '$' :: '\x7b' ::
          (p.data ++ '\x7d' :: interpolateChars ctx suf.data)) := by
      apply congrArg String.mk
      show pre.data ++ ['$', '\x7b'] ++ p.data ++ ['\x7d'] ++
        interpolateChars ctx suf.data = _
      simp [List.append_assoc]
    show String.mk (interpolateChars ctx
      ((pre ++ "$\x7b" ++ p ++ "\x7d" ++ suf).data)) = _
    rw [hdata, hchars, hrhs]

/-- An empty resolution context (no workflow input keys, no step outputs,
no environment). -/
def emptyCtx : ParameterContext :=
  { workflowInput := [], stepExecutions := [], env := [] }

/-- Witness for `c6_unresolved_refs_preserved`: the spec scenario —
`"x=${workflow.input.missing}"` with `missing` absent resolves to
`undefined` and comes back unchanged. -/
theorem c6_unresolved_refs_preserved_witness :
    resolveReference ("workflow.input.missing") emptyCtx = .undefined ∧
    interpolateString ("x=" ++ "$\x7b" ++ "workflow.input.missing" ++
        "\x7d" ++ "") emptyCtx =
      "x=" ++ "$\x7b" ++ "workflow.input.missing" ++ "\x7d" ++
        interpolateString ("") emptyCtx := by
  have h1 : resolveReference ("workflow.input.missing") emptyCtx = .undefined := by
    decide
  refine ⟨h1, ?_⟩
  exact c6_unresolved_refs_preserved.2.2 emptyCtx ("workflow.input.missing")
    ("x=") ("") (by decide) (by decide) (by decide) h1

theorem executeStep_fields (reg : Registry) (step : StepDefinition)
    (input context : JObject) (pctx : Option ParameterContext) :
    (executeStep reg step input context pctx).stepId = step.id ∧
    (executeStep reg step input context pctx).completedAt.isSome = true := by
  unfold executeStep
  cases hb : executeStepBody reg step.type (resolvedConfigOf step pctx)
      (resolvedInputOf step input pctx) context <;> simp [hb]

/-- Every trace entry the engine records is terminal: status `completed` or
`failed`, a set `completedAt`, and at least one attempt. -/
def isTerminalEntry (se : StepExecution) : Prop :=
  (se.status = .completed ∨ se.status = .failed) ∧
  se.completedAt.isSome = true ∧ 1 ≤ se.attempts

theorem singleAttempt_terminal (regAt : Nat → Registry)
    (step : StepDefinition) (input context : JObject)
    (pctx : Option ParameterContext) (i : Nat) (hi : 1 ≤ i) :
    isTerminalEntry (singleAttempt regAt step input context pctx i) ∧
    (singleAttempt regAt step input context pctx i).stepId = step.id := by
  refine ⟨⟨singleAttempt_status regAt step input context pctx i, ?_, hi⟩, ?_⟩
  · exact (executeStep_fields (regAt i) step input context pctx).2
  · exact (executeStep_fields (regAt i) step input context pctx).1

theorem retryLoop_terminal (regAt : Nat → Registry) (step : StepDefinition)
    (input context : JObject) (pctx : Option ParameterContext) (b : Nat) :
    ∀ r a d, 1 ≤ a →
      isTerminalEntry (retryLoop regAt step input context pctx b a r d).1 ∧
      (retryLoop regAt step input context pctx b a r d).1.stepId = step.id := by
  intro r
  induction r with
  | zero =>
      intro a d ha
      rw [retryLoop.eq_def]
      by_cases hc :
          (singleAttempt regAt step input context pctx a).status = .completed
      · simp only [hc, if_pos rfl]
        exact singleAttempt_terminal regAt step input context pctx a ha
      · simp only [if_neg hc]
        exact singleAttempt_terminal regAt step input context pctx a ha
  | succ r' ih =>
      intro a d ha
      rw [retryLoop.eq_def]
      by_cases hc :
          (singleAttempt regAt step input context pctx a).status = .completed
      · simp only [hc, if_pos rfl]
        exact singleAttempt_terminal regAt step input context pctx a ha
      · simp only [if_neg hc]
        exact ih (a + 1) (d * b) (by omega)

theorem executeWithRetry_terminal (regAt : Nat → Registry)
    (step : StepDefinition) (input context : JObject)
    (pctx : Option ParameterContext) :
    isTerminalEntry (executeWithRetry regAt step input context pctx).1 ∧
    (executeWithRetry regAt step input context pctx).1.stepId = step.id :=
  retryLoop_terminal regAt step input context pctx _ _ 1 _ le_rfl

theorem runSteps_trace_terminal (regAt : Nat → Registry)
    (emitter : Option Emitter) (wf : WorkflowDefinition)
    (input context : JObject) :
    ∀ (steps : List StepDefinition) (ex : WorkflowExecution),
      (∀ se ∈ ex.stepExecutions, isTerminalEntry se) →
      ∀ se ∈ (runSteps regAt emitter wf input context steps ex).1.stepExecutions,
        isTerminalEntry se := by
  intro steps
  induction steps with
  | nil => intro ex hinv; simpa [runSteps] using hinv
  | cons step rest ih =>
      intro ex hinv
      rw [runSteps]
      cases h1 : emitEvent emitter ("step.started") with
      | error msg => simpa using hinv
      | ok u =>
          cases u
          dsimp only
          have hpush : ∀ se ∈ ex.stepExecutions ++
              [(executeWithRetry regAt step (getStepInput ex step input)
                  context none).1], isTerminalEntry se := by
            intro se hse
            rcases List.mem_append.mp hse with h | h
            · exact hinv se h
            · rw [List.mem_singleton] at h
              subst h
              exact (executeWithRetry_terminal regAt step
                (getStepInput ex step input) context none).1
          cases h2 : emitEvent emitter ("step.completed") with
          | error msg => simpa using hpush
          | ok u' =>
              cases u'
              dsimp only
              by_cases hf : (executeWithRetry regAt step
                  (getStepInput ex step input) context none).1.status = .failed
              · rw [if_pos hf]
                by_cases hs : errorHandlingOf wf = .stop
                · rw [if_pos hs]
                  simpa using hpush
                · rw [if_neg hs]
                  exact ih _ hpush
              · rw [if_neg hf]
                exact ih _ hpush

/-- C10: every StepExecution in the trace of a WorkflowExecution returned
by `execute` (with any registry, emitter — throwing or not — workflow and
input) is terminal: status `completed` or `failed` (never `pending`,
`running` or `skipped`), with a set `completedAt` and `attempts ≥ 1`. -/
theorem c10_trace_entries_terminal (regAt : Nat → Registry)
    (emitter : Option Emitter) (execId : String) (wf : WorkflowDefinition)
    (input : JObject) (ex : WorkflowExecution)
    (hex : execute regAt emitter execId wf input = Except.ok ex) :
    ∀ se ∈ ex.stepExecutions, isTerminalEntry se := by
  intro se hse
  unfold execute at hex
  cases hstart : emitEvent emitter ("execution.started") with
  | error msg => rw [hstart] at hex; simp at hex
  | ok u =>
      cases u
      rw [hstart] at hex
      dsimp only at hex
      cases hdone : emitEvent emitter ("execution.completed") with
      | error msg => rw [hdone] at hex; simp at hex
      | ok u' =>
          cases u'
          rw [hdone] at hex
          dsimp only at hex
          simp only [Except.ok.injEq] at hex
          subst hex
          simp only [] at hse
          split at hse
          · dsimp only at hse
            exact runSteps_trace_terminal regAt emitter wf input _ wf.steps _
              (by simp) se hse
          · split at hse
            · dsimp only at hse
              exact runSteps_trace_terminal regAt emitter wf input _ wf.steps _
                (by simp) se hse
            · exact runSteps_trace_terminal regAt emitter wf input _ wf.steps _
                (by simp) se hse

theorem runSteps_no_catch (regAt : Nat → Registry) (emitter : Option Emitter)
    (wf : WorkflowDefinition) (input context : JObject)
    (hemit : ∀ ev, emitEvent emitter ev = Except.ok ()) :
    ∀ (steps : List StepDefinition) (ex : WorkflowExecution),
      (runSteps regAt emitter wf input context steps ex).2 = none := by
  intro steps
  induction steps with
  | nil => intro ex; rfl
  | cons step rest ih =>
      intro ex
      rw [runSteps, hemit ("step.started")]
      dsimp only
      rw [hemit ("step.completed")]
      dsimp only
      by_cases hf : (executeWithRetry regAt step (getStepInput ex step input)
          context none).1.status = .failed
      · rw [if_pos hf]
        by_cases hs : errorHandlingOf wf = .stop
        · rw [if_pos hs]
        · rw [if_neg hs]; exact ih _
      · rw [if_neg hf]; exact ih _

theorem runSteps_status (regAt : Nat → Registry) (emitter : Option Emitter)
    (wf : WorkflowDefinition) (input context : JObject) :
    ∀ (steps : List StepDefinition) (ex : WorkflowExecution),
      (runSteps regAt emitter wf input context steps ex).1.status = ex.status ∨
      (runSteps regAt emitter wf input context steps ex).1.status = .failed := by
  intro steps
  induction steps with
  | nil => intro ex; left; rfl
  | cons step rest ih =>
      intro ex
      rw [runSteps]
      cases h1 : emitEvent emitter ("step.started") with
      | error msg => left; rfl
      | ok u =>
          cases u
          dsimp only
          cases h2 : emitEvent emitter ("step.completed") with
          | error msg => left; rfl
          | ok u' =>
              cases u'
              dsimp only
              by_cases hf : (executeWithRetry regAt step
                  (getStepInput ex step input) context none).1.status = .failed
              · rw [if_pos hf]
                by_cases hs : errorHandlingOf wf = .stop
                · rw [if_pos hs]; right; rfl
                · rw [if_neg hs]; exact ih _
              · rw [if_neg hf]; exact ih _

theorem execute_ok_char (regAt : Nat → Registry) (emitter : Option Emitter)
    (execId : String) (wf : WorkflowDefinition) (input : JObject)
    (hemit : ∀ ev, emitEvent emitter ev = Except.ok ()) :
    ∃ lr : WorkflowExecution,
      runSteps regAt emitter wf input
          [(("workflowId" : String), .str wf.id),
           (("executionId" : String), .str execId)] wf.steps
          { id := execId, workflowId := wf.id, status := .running,
            input := input, stepExecutions := [], startedAt := {} } =
        (lr, none) ∧
      execute regAt emitter execId wf input = Except.ok
        { (if lr.status = ExecStatus.running then
            { lr with status := .completed, output := some (buildOutput lr) }
           else lr) with completedAt := some Date.now } := by
  rcases hrs : runSteps regAt emitter wf input
      [(("workflowId" : String), .str wf.id),
       (("executionId" : String), .str execId)] wf.steps
      { id := execId, workflowId := wf.id, status := .running,
        input := input, stepExecutions := [], startedAt := {} } with ⟨lr, caught⟩
  have hc : caught = none := by
    have h := runSteps_no_catch regAt emitter wf input
      [(("workflowId" : String), .str wf.id),
       (("executionId" : String), .str execId)] hemit wf.steps
      { id := execId, workflowId := wf.id, status := .running,
        input := input, stepExecutions := [], startedAt := {} }
    rw [hrs] at h
    exact h
  subst hc
  refine ⟨lr, rfl, ?_⟩
  unfold execute
  rw [hemit ("execution.started")]
  dsimp only
  rw [hrs]
  dsimp only
  rw [hemit ("execution.completed")]

theorem runSteps_continue_char (regAt : Nat → Registry)
    (emitter : Option Emitter) (wf : WorkflowDefinition)
    (input context : JObject)
    (hemit : ∀ ev, emitEvent emitter ev = Except.ok ())
    (hcont : errorHandlingOf wf ≠ .stop) :
    ∀ (steps : List StepDefinition) (ex : WorkflowExecution),
      ∃ new : List StepExecution,
        (runSteps regAt emitter wf input context steps ex).1.stepExecutions =
          ex.stepExecutions ++ new ∧
        List.Forall₂ (fun (se : StepExecution) (st : StepDefinition) =>
          se.stepId = st.id) new steps ∧
        (runSteps regAt emitter wf input context steps ex).1.status =
          ex.status ∧
        (runSteps regAt emitter wf input context steps ex).1.error =
          ex.error ∧
        (runSteps regAt emitter wf input context steps ex).1.output =
          ex.output := by
  intro steps
  induction steps with
  | nil =>
      intro ex
      exact ⟨[], by simp [runSteps], .nil, rfl, rfl, rfl⟩
  | cons step rest ih =>
      intro ex
      rw [runSteps, hemit ("step.started")]
      dsimp only
      rw [hemit ("step.completed")]
      dsimp only
      have hrec :
          ∃ new : List StepExecution,
            (runSteps regAt emitter wf input context rest
              { ex with stepExecutions := ex.stepExecutions ++
                  [(executeWithRetry regAt step (getStepInput ex step input)
                    context none).1] }).1.stepExecutions =
              ex.stepExecutions ++
                ((executeWithRetry regAt step (getStepInput ex step input)
                    context none).1 :: new) ∧
            List.Forall₂ (fun (se : StepExecution) (st : StepDefinition) =>
              se.stepId = st.id)
              ((executeWithRetry regAt step (getStepInput ex step input)
                  context none).1 :: new) (step :: rest) ∧
            (runSteps regAt emitter wf input context rest
              { ex with stepExecutions := ex.stepExecutions ++
                  [(executeWithRetry regAt step (getStepInput ex step input)
                    context none).1] }).1.status = ex.status ∧
            (runSteps regAt emitter wf input context rest
              { ex with stepExecutions := ex.stepExecutions ++
                  [(executeWithRetry regAt step (getStepInput ex step input)
                    context none).1] }).1.error = ex.error ∧
            (runSteps regAt emitter wf input context rest
              { ex with stepExecutions := ex.stepExecutions ++
                  [(executeWithRetry regAt step (getStepInput ex step input)
                    context none).1] }).1.output = ex.output := by
        obtain ⟨new', h1, h2, h3, h4, h5⟩ := ih
          { ex with stepExecutions := ex.stepExecutions ++
              [(executeWithRetry regAt step (getStepInput ex step input)
                context none).1] }
        refine ⟨new', ?_, ?_, h3, h4, h5⟩
        · rw [h1]
          simp
        · exact List.Forall₂.cons
            (executeWithRetry_terminal regAt step
              (getStepInput ex step input) context none).2 h2
      obtain ⟨new', a1, a2, a3, a4, a5⟩ := hrec
      by_cases hf : (executeWithRetry regAt step (getStepInput ex step input)
          context none).1.status = .failed
      · rw [if_pos hf, if_neg hcont]
        exact ⟨_ :: new', a1, a2, a3, a4, a5⟩
      · rw [if_neg hf]
        exact ⟨_ :: new', a1, a2, a3, a4, a5⟩

/-- C8: with `errorHandling.onError = 'continue'` a failed step does not
halt iteration: every step in the workflow still executes and appends its
StepExecution to the trace in order (so the trace pairs 1-1 with
`wf.steps`), the failure stays recorded only in the failed step's own
entry (the workflow-level `error` stays unset), and the overall status is
`completed`. -/
theorem c8_continue_runs_all_steps (regAt : Nat → Registry)
    (emitter : Option Emitter) (execId : String) (wf : WorkflowDefinition)
    (input : JObject) (ex : WorkflowExecution)
    (hemit : ∀ ev, emitEvent emitter ev = Except.ok ())
    (hcont : errorHandlingOf wf = .continue')
    (hex : execute regAt emitter execId wf input = Except.ok ex) :
    ex.stepExecutions.length = wf.steps.length ∧
    List.Forall₂ (fun (se : StepExecution) (st : StepDefinition) =>
      se.stepId = st.id) ex.stepExecutions wf.steps ∧
    ex.status = .completed ∧ ex.error = none := by
  obtain ⟨lr, hloop, hexeq⟩ :=
    execute_ok_char regAt emitter execId wf input hemit
  rw [hexeq] at hex
  simp only [Except.ok.injEq] at hex
  subst hex
  obtain ⟨new, h1, h2, h3, h4, h5⟩ := runSteps_continue_char regAt emitter wf
    input [(("workflowId" : String), .str wf.id),
      (("executionId" : String), .str execId)] hemit
    (by rw [hcont]; intro h; cases h) wf.steps
    { id := execId, workflowId := wf.id, status := .running,
      input := input, stepExecutions := [], startedAt := {} }
  rw [hloop] at h1 h3 h4 h5
  dsimp only at h1 h3 h4 h5
  rw [List.nil_append] at h1
  rw [if_pos h3]
  dsimp only
  rw [h1]
  exact ⟨h2.length_eq, h2, rfl, h4⟩

theorem runSteps_stop_char (regAt : Nat → Registry)
    (emitter : Option Emitter) (wf : WorkflowDefinition)
    (input context : JObject)
    (hemit : ∀ ev, emitEvent emitter ev = Except.ok ())
    (hstop : errorHandlingOf wf = .stop) :
    ∀ (steps : List StepDefinition) (ex : WorkflowExecution),
      ∃ new : List StepExecution,
        (runSteps regAt emitter wf input context steps ex).1.stepExecutions =
          ex.stepExecutions ++ new ∧
        List.Forall₂ (fun (se : StepExecution) (st : StepDefinition) =>
          se.stepId = st.id) new (steps.take new.length) ∧
        (∀ se ∈ new.dropLast, se.status ≠ .failed) ∧
        ((∃ se, new.getLast? = some se ∧ se.status = .failed ∧
            (runSteps regAt emitter wf input context steps ex).1.status =
              .failed ∧
            (runSteps regAt emitter wf input context steps ex).1.error =
              some { message := "Step " ++ se.stepId ++ " failed",
                     stepId := some se.stepId,
                     details := se.error.map ErrorDetails.stepError })
         ∨ ((runSteps regAt emitter wf input context steps ex).1.status =
              ex.status ∧
            (runSteps regAt emitter wf input context steps ex).1.error =
              ex.error ∧
            new.length = steps.length ∧
            ∀ se ∈ new, se.status ≠ .failed)) ∧
        (runSteps regAt emitter wf input context steps ex).1.output =
          ex.output := by
  intro steps
  induction steps with
  | nil =>
      intro ex
      refine ⟨[], by simp [runSteps], by simp, by simp, ?_, rfl⟩
      right
      exact ⟨rfl, rfl, rfl, by simp⟩
  | cons step rest ih =>
      intro ex
      rw [runSteps, hemit ("step.started")]
      dsimp only
      rw [hemit ("step.completed")]
      dsimp only
      have hid : (executeWithRetry regAt step (getStepInput ex step input)
          context none).1.stepId = step.id :=
        (executeWithRetry_terminal regAt step
          (getStepInput ex step input) context none).2
      by_cases hf : (executeWithRetry regAt step (getStepInput ex step input)
          context none).1.status = .failed
      · rw [if_pos hf, if_pos hstop]
        refine ⟨[(executeWithRetry regAt step (getStepInput ex step input)
            context none).1], rfl, ?_, by simp, ?_, rfl⟩
        · simp only [List.length_singleton, List.take_succ_cons,
            List.take_zero]
          exact List.Forall₂.cons hid List.Forall₂.nil
        · left
          refine ⟨(executeWithRetry regAt step (getStepInput ex step input)
              context none).1, rfl, hf, rfl, ?_⟩
          rw [hid]
      · rw [if_neg hf]
        obtain ⟨new', a1, a2, a3, a4, a5⟩ := ih
          { ex with stepExecutions := ex.stepExecutions ++
              [(executeWithRetry regAt step (getStepInput ex step input)
                context none).1] }
        refine ⟨(executeWithRetry regAt step (getStepInput ex step input)
            context none).1 :: new', ?_, ?_, ?_, ?_, a5⟩
        · rw [a1]
          simp
        · simp only [List.length_cons, List.take_succ_cons]
          exact List.Forall₂.cons hid a2
        · intro se hse
          cases new' with
          | nil => simp at hse
          | cons b l =>
              rw [List.dropLast_cons₂] at hse
              rcases List.mem_cons.mp hse with h | h
              · rw [h]; exact hf
              · exact a3 se h
        · rcases a4 with ⟨lse, b1, b2, b3, b4⟩ | ⟨b1, b2, b3, b4⟩
          · left
            refine ⟨lse, ?_, b2, b3, b4⟩
            cases new' with
            | nil => simp at b1
            | cons b l => rw [← b1]; rfl
          · right
            refine ⟨b1, b2, by simp [b3], ?_⟩
            intro se hse
            rcases List.mem_cons.mp hse with h | h
            · rw [h]; exact hf
            · exact b4 se h

/-- C3: with `errorHandling.onError` absent or `'stop'` (and emission not
throwing), the trace of the returned execution pairs index-for-index with
the first `length` steps of the workflow, no entry before the last is
failed, and when the last entry is failed the execution carries status
`failed` and the synthetic error `{message: "Step <id> failed", stepId,
details: the step's recorded error}` — iteration halted at that step, so
no later step was ever executed (the trace stops there). -/
theorem c3_stop_halts (regAt : Nat → Registry) (emitter : Option Emitter)
    (execId : String) (wf : WorkflowDefinition) (input : JObject)
    (ex : WorkflowExecution)
    (hemit : ∀ ev, emitEvent emitter ev = Except.ok ())
    (hstop : errorHandlingOf wf = .stop)
    (hex : execute regAt emitter execId wf input = Except.ok ex) :
    ex.stepExecutions.length ≤ wf.steps.length ∧
    List.Forall₂ (fun (se : StepExecution) (st : StepDefinition) =>
      se.stepId = st.id) ex.stepExecutions
      (wf.steps.take ex.stepExecutions.length) ∧
    (∀ se ∈ ex.stepExecutions.dropLast, se.status ≠ .failed) ∧
    (∀ se, ex.stepExecutions.getLast? = some se → se.status = .failed →
      ex.status = .failed ∧
      ex.error = some { message := "Step " ++ se.stepId ++ " failed",
                        stepId := some se.stepId,
                        details := se.error.map ErrorDetails.stepError }) := by
  obtain ⟨lr, hloop, hexeq⟩ :=
    execute_ok_char regAt emitter execId wf input hemit
  rw [hexeq] at hex
  simp only [Except.ok.injEq] at hex
  subst hex
  obtain ⟨new, h1, h2, h3, h4, h5⟩ := runSteps_stop_char regAt emitter wf
    input [(("workflowId" : String), .str wf.id),
      (("executionId" : String), .str execId)] hemit hstop wf.steps
    { id := execId, workflowId := wf.id, status := .running,
      input := input, stepExecutions := [], startedAt := {} }
  rw [hloop] at h1 h5
  dsimp only at h1 h5
  rw [List.nil_append] at h1
  rcases h4 with ⟨lse, b1, b2, b3, b4⟩ | ⟨b1, b2, b3, b4⟩
  · rw [hloop] at b3 b4
    dsimp only at b3 b4
    rw [if_neg (by rw [b3]; intro hc; cases hc)]
    dsimp only
    rw [h1]
    have hlen := h2.length_eq
    rw [List.length_take] at hlen
    refine ⟨by omega, h2, h3, ?_⟩
    intro se hlast _
    rw [b1] at hlast
    injection hlast with hlast
    subst hlast
    exact ⟨b3, b4⟩
  · rw [hloop] at b1 b2
    dsimp only at b1 b2
    rw [if_pos b1]
    dsimp only
    rw [h1]
    have hlen := h2.length_eq
    rw [List.length_take] at hlen
    refine ⟨by omega, h2, h3, ?_⟩
    intro se hlast hsf
    exact absurd hsf (b4 se (List.mem_of_mem_getLast? hlast))

/-- C9 (amended): a completed execution's `output` is
`some (buildOutput ...)`: the last StepExecution's output when that output
is defined, and the empty object `{}` when the last StepExecution has no
output (`lastStep?.output || {}`), rather than the undefined output field
itself. -/
theorem c9_completed_output (regAt : Nat → Registry)
    (emitter : Option Emitter) (execId : String) (wf : WorkflowDefinition)
    (input : JObject) (ex : WorkflowExecution)
    (hemit : ∀ ev, emitEvent emitter ev = Except.ok ())
    (hex : execute regAt emitter execId wf input = Except.ok ex)
    (hcomp : ex.status = .completed) :
    ex.output = some (buildOutput ex) ∧
    (∀ se o, ex.stepExecutions.getLast? = some se → se.output = some o →
      ex.output = some o) := by
  obtain ⟨lr, hloop, hexeq⟩ :=
    execute_ok_char regAt emitter execId wf input hemit
  rw [hexeq] at hex
  simp only [Except.ok.injEq] at hex
  subst hex
  dsimp only at hcomp ⊢
  by_cases hrun : lr.status = ExecStatus.running
  · rw [if_pos hrun] at hcomp ⊢
    constructor
    · rfl
    · intro se o hlast ho
      dsimp only at hlast ⊢
      show some (buildOutput lr) = some o
      unfold buildOutput
      rw [hlast]
      simp [ho]
  · exfalso
    rw [if_neg hrun] at hcomp
    have hst := runSteps_status regAt emitter wf input
      [(("workflowId" : String), .str wf.id),
       (("executionId" : String), .str execId)] wf.steps
      { id := execId, workflowId := wf.id, status := .running,
        input := input, stepExecutions := [], startedAt := {} }
    rw [hloop] at hst
    dsimp only at hst
    rcases hst with h | h
    · exact hrun h
    · rw [h] at hcomp
      cases hcomp

/-- Single connector step with empty config (its `http` default connector
is missing from the empty registry, so it always fails), `onError:
continue`. -/
def wfC9 : WorkflowDefinition :=
  { id := "w9", name := "w9", version := "1.0.0",
    steps := [{ id := "s1", name := "s1", type := .connector, config := [] }],
    errorHandling := some { onError := some .continue' } }

/-- C9 counterexample: under `onError = continue` a one-step workflow whose
only step fails yields a completed execution whose last StepExecution has
no output, yet the execution's `output` is the empty object `some {}` —
not equal to that StepExecution's (absent) output as the claim states. -/
theorem c9_counterexample :
    (execute emptyRegistryAt none ("e9") wfC9 [] = Except.ok
      { id := "e9", workflowId := "w9", status := .completed, input := [],
        output := some [],
        stepExecutions :=
          [{ stepId := "s1", status := .failed, input := [],
             error := some { message := "Connector not found: http" },
             startedAt := {}, completedAt := some {}, attempts := 1 }],
        startedAt := {}, completedAt := some {}, error := none })
    ∧ ((getOk (execute emptyRegistryAt none ("e9") wfC9 [])).stepExecutions.getLast?.bind
        (fun se => se.output)) = none
    ∧ (getOk (execute emptyRegistryAt none ("e9") wfC9 [])).output = some []
    ∧ some ([] : JObject) ≠ (none : Option JObject) :=
  ⟨rfl, rfl, rfl, by simp⟩

/-- Registry in which every connector type resolves to a connector that
always succeeds with `data: null`. -/
def regOkAt : Nat → Registry := fun _ _ => some alwaysOkConnector

/-- Single connector step with empty config and no error handling. -/
def wfC10 : WorkflowDefinition :=
  { id := "w10", name := "w10", version := "1.0.0",
    steps := [{ id := "s1", name := "s1", type := .connector, config := [] }] }

/-- The trace entry recorded by the succeeding run used in the C9
witness. -/
def c9wEntry : StepExecution :=
  { stepId := "s1", status := .completed, input := [],
    output := some [(("data" : String), JValue.null)],
    startedAt := {}, completedAt := some {}, attempts := 1 }

/-- Witness for `c9_completed_output`: a one-step workflow whose connector
succeeds with `data: null` completes and its output equals the last
StepExecution's output `{data: null}`. -/
theorem c9_completed_output_witness :
    (getOk (execute regOkAt none ("e9w") wfC10 [])).status = .completed ∧
    (getOk (execute regOkAt none ("e9w") wfC10 [])).output =
      some (buildOutput (getOk (execute regOkAt none ("e9w") wfC10 []))) ∧
    (getOk (execute regOkAt none ("e9w") wfC10 [])).output =
      some [(("data" : String), JValue.null)] := by
  have h := c9_completed_output regOkAt none ("e9w") wfC10 []
    (getOk (execute regOkAt none ("e9w") wfC10 [])) (fun _ => rfl) rfl rfl
  refine ⟨rfl, h.1, ?_⟩
  exact h.2 c9wEntry [(("data" : String), JValue.null)] rfl rfl

/-- The trace entry recorded by the failing run used in the C10 witness. -/
def c10Entry : StepExecution :=
  { stepId := "s1", status := .failed, input := [],
    error := some { message := "Connector not found: http" },
    startedAt := {}, completedAt := some {}, attempts := 1 }

/-- Witness for `c10_trace_entries_terminal` at a concrete failing run. -/
theorem c10_trace_entries_terminal_witness :
    (execute emptyRegistryAt none ("e10") wfC10 [] = Except.ok
      { id := "e10", workflowId := "w10", status := .failed, input := [],
        stepExecutions := [c10Entry], startedAt := {}, completedAt := some {},
        error := some
          { message := "Step s1 failed", stepId := some ("s1"),
            details := some (.stepError
              { message := "Connector not found: http" }) } })
    ∧ isTerminalEntry c10Entry := by
  constructor
  · rfl
  · exact c10_trace_entries_terminal emptyRegistryAt none ("e10") wfC10 [] _
      rfl c10Entry (by decide)

/-- Two failing connector steps, default error handling (absent, so
`stop`). -/
def wfC3 : WorkflowDefinition :=
  { id := "w3", name := "w3", version := "1.0.0",
    steps := [{ id := "s1", name := "s1", type := .connector, config := [] },
              { id := "s2", name := "s2", type := .connector, config := [] }] }

/-- Witness for `c3_stop_halts`: two steps, the first fails, default
(`stop`) error handling — exactly one StepExecution is recorded (the
second step never runs), the execution is `failed` with the synthetic
step error. -/
theorem c3_stop_halts_witness :
    (getOk (execute emptyRegistryAt none ("e3") wfC3 [])).stepExecutions.length = 1 ∧
    (getOk (execute emptyRegistryAt none ("e3") wfC3 [])).status = .failed ∧
    (getOk (execute emptyRegistryAt none ("e3") wfC3 [])).error =
      some { message := "Step s1 failed", stepId := some ("s1"),
             details := some (.stepError
               { message := "Connector not found: http" }) } := by
  have h := c3_stop_halts emptyRegistryAt none ("e3") wfC3 []
    (getOk (execute emptyRegistryAt none ("e3") wfC3 [])) (fun _ => rfl)
    rfl rfl
  have h4 := h.2.2.2 c10Entry rfl rfl
  exact ⟨rfl, h4.1, h4.2⟩

/-- Two failing connector steps with `onError: continue`. -/
def wfC8 : WorkflowDefinition :=
  { id := "w8", name := "w8", version := "1.0.0",
    steps := [{ id := "s1", name := "s1", type := .connector, config := [] },
              { id := "s2", name := "s2", type := .connector, config := [] }],
    errorHandling := some { onError := some .continue' } }

/-- Witness for `c8_continue_runs_all_steps`: both steps run (2
StepExecutions recorded) and the overall status is `completed`. -/
theorem c8_continue_runs_all_steps_witness :
    (getOk (execute emptyRegistryAt none ("e8") wfC8 [])).stepExecutions.length = 2 ∧
    (getOk (execute emptyRegistryAt none ("e8") wfC8 [])).status = .completed ∧
    (getOk (execute emptyRegistryAt none ("e8") wfC8 [])).error = none := by
  have h := c8_continue_runs_all_steps emptyRegistryAt none ("e8") wfC8 []
    (getOk (execute emptyRegistryAt none ("e8") wfC8 [])) (fun _ => rfl)
    rfl rfl
  exact ⟨h.1.trans rfl, h.2.2.1, h.2.2.2⟩

end Glue

